import Mathlib

/-!
# bladerf_power: the frequency-sweep acquisition scheduler

A shallow embedding of `src/device.cpp` (`open_device`, `schedule_tuning`,
`receive_buffers`, `calibrate_quicktune`) and of the scanning loop of
`src/main.cpp`, followed by the properties established about them.

Conventions.
* C unsigned integers are natural numbers; every operation whose result is
  stored in a fixed-width object is reduced modulo `2^w` explicitly.
* libbladeRF is external: whatever a driver call hands back (status codes,
  timestamps, quick-tune descriptors) is an input of the embedded function.
* A function returns `none` exactly where the C code has no defined result
  (integer division by zero, an array access outside its bounds).
-/

namespace BladerfPower

/-! ## Data model -/

/-- Descriptor filled in by `bladerf_get_quick_tune`; its contents belong to
libbladeRF, so it is represented by an abstract code. -/
abbrev bladerf_quick_tune := Nat

/-- The fields of the global `opts` that `device.cpp` and the loop of `main.cpp`
read. All of them hold unsigned integer values. -/
structure Options where
  freqs : List Nat
  num_freqs : Nat
  samplerate : Nat
  fft_len : Nat
  num_integrations : Nat
  deriving Repr, DecidableEq

/-- The record `main` pushes on `device_data.queued_buffers`, field by field as
in the initialiser of `blah`: the block's position inside the received buffer
(`buffer + idx*2*opts.fft_len`), `freq_idx`, `integration_idx`, `tv_freq` and
`idx == 0`. -/
structure data_capture where
  data : Nat
  freq_idx : Nat
  integration_idx : Nat
  tv_freq : Nat
  first : Bool
  deriving Repr, DecidableEq

/-- The global `device_data`: the timestamp cursor, the quick-tune table
(`none` is the `NULL` pointer, a `none` slot is allocated but not yet written)
and the queue of captured blocks, oldest first. Removal by the worker threads
is not part of this development, so the queue is the history of all pushes. -/
structure device_data_struct where
  last_buffer_timestamp : Nat
  qtunes : Option (List (Option bladerf_quick_tune))
  queued_buffers : List data_capture
  deriving Repr, DecidableEq

/-- Calls `open_device` and `calibrate_quicktune` make to libbladeRF, in the order they are
issued. -/
inductive DriverCall where
  | open
  | set_frequency (f : Nat)
  | set_sample_rate (rate : Nat)
  | set_bandwidth (bw : Nat)
  | set_lna_gain
  | set_rxvga1
  | set_rxvga2
  | sync_config
  | enable_module
  | get_timestamp
  | get_quick_tune (idx : Nat)
  | close
  deriving Repr, DecidableEq

/-- Status code libbladeRF returns when the requested timestamp has already
gone by (`libbladeRF.h`). -/
def BLADERF_ERR_TIME_PAST : Int := -14

/-! ## `schedule_tuning` and `receive_buffers` -/

/-- The function `schedule_tuning(unsigned short idx, uint64_t timestamp)`: asks the driver
for a retune with `&device_data.qtunes[idx]` at `timestamp`. A failure is only
logged, so the call issued is the whole effect. -/
def schedule_tuning (idx timestamp : Nat) : Nat × Nat :=
  (idx % 2 ^ 16, timestamp % 2 ^ 64)

/-- The constant `MAX_CAPTURE_BUFF_SIZE`. -/
def MAX_CAPTURE_BUFF_SIZE : Nat := 100 * 1024 * 1024

/-- The size of one block in bytes, `uint32_t buff_size = sizeof(int16_t)*2*opts.fft_len`. -/
def buff_size (opts : Options) : Nat :=
  (2 * 2 * opts.fft_len) % 2 ^ 32

/-- The bound `uint32_t max_buffs = MAX(MAX_CAPTURE_BUFF_SIZE/buff_size, 1)`; the division
has no result when `buff_size` is zero (the quotient never exceeds the constant, so
it fits the 32-bit object). -/
def max_buffs (opts : Options) : Option Nat :=
  if buff_size opts = 0 then none
  else some (max (MAX_CAPTURE_BUFF_SIZE / buff_size opts) 1)

/-- The unsigned difference `opts.num_integrations - integration_idx`. -/
def remaining (opts : Options) (integration_idx : Nat) : Nat :=
  (opts.num_integrations + 2 ^ 32 - integration_idx % 2 ^ 32) % 2 ^ 32

/-- The block count `uint32_t num_buffs = MIN(opts.num_integrations - integration_idx, max_buffs)`. -/
def num_buffs (opts : Options) (integration_idx : Nat) : Option Nat :=
  (max_buffs opts).map fun m => min (remaining opts integration_idx) m

/-- What `bladerf_sync_rx`, and the `bladerf_get_timestamp` that follows a
"time in past" failure, hand back to `receive_buffers`: the status code, the
content of `meta.timestamp` after the call, and the clock value stored by the
timestamp query. -/
structure RxReply where
  status : Int
  timestamp : Nat
  clock : Nat
  deriving Repr, DecidableEq

/-- One call of `receive_buffers` as the driver sees it: the indices it was
called with, the block count, the timestamp of the request (`ts`), the
`schedule_tuning` call it made (index, timestamp) if any, and the status of
`bladerf_sync_rx`. -/
structure Request where
  freq_idx : Nat
  integration_idx : Nat
  num_buffs : Nat
  timestamp : Nat
  retune : Option (Nat × Nat)
  status : Int
  deriving Repr, DecidableEq

/-- Result of `receive_buffers`: whether a buffer (rather than `NULL`) is
returned, `*ret_buffs`, the updated `device_data`, and the request issued. -/
structure Received where
  data : Bool
  ret_buffs : Nat
  dd : device_data_struct
  request : Request
  deriving Repr, DecidableEq

/-- Timestamp of the request: `device_data.last_buffer_timestamp +
num_buffs*opts.fft_len`, the product in 32-bit unsigned arithmetic and the sum
in `uint64_t`. -/
def target_timestamp (opts : Options) (last_buffer_timestamp n : Nat) : Nat :=
  (last_buffer_timestamp + (n * opts.fft_len) % 2 ^ 32) % 2 ^ 64

/-- The function `receive_buffers(freq_idx, integration_idx, &ret_buffs)`: computes the block
count, schedules the retune when the request covers all remaining integrations, receives, and
updates the cursor (resynchronising it after a "time in past" failure). -/
def receive_buffers (opts : Options) (dd : device_data_struct)
    (freq_idx integration_idx : Nat) (r : RxReply) : Option Received :=
  match num_buffs opts integration_idx with
  | none => none
  | some n =>
    let ts := target_timestamp opts dd.last_buffer_timestamp n
    let retune :=
      if n = remaining opts integration_idx then some (schedule_tuning freq_idx (ts + 1))
      else none
    let req : Request := ⟨freq_idx, integration_idx, n, ts, retune, r.status⟩
    -- device_data.last_buffer_timestamp = meta.timestamp
    let dd1 := { dd with last_buffer_timestamp := r.timestamp }
    if r.status ≠ 0 then
      let dd2 :=
        if r.status = BLADERF_ERR_TIME_PAST then
          { dd1 with last_buffer_timestamp := (r.clock + opts.samplerate / 1000) % 2 ^ 64 }
        else dd1
      some ⟨false, n, dd2, req⟩
    else some ⟨true, n, dd1, req⟩

/-! ## The scanning loop of `main` -/

/-- The variables of the `while( keep_running )` loop, together with the list of
requests issued so far. -/
structure LoopState where
  freq_idx : Nat
  integration_idx : Nat
  tv_freq : Nat
  dd : device_data_struct
  requests : List Request
  deriving Repr, DecidableEq

/-- What one iteration reads from outside: the wall clock and the driver's
answer to the receive. -/
structure Tick where
  tv : Nat
  rx : RxReply
  deriving Repr, DecidableEq

/-- The loop `for( int idx=0; idx<num_buffs; ++idx )` of `main`, with `todo`
iterations left: pushes one record and advances `integration_idx` modulo
`opts.num_integrations` each time. -/
def submit (opts : Options) (freq_idx tv_freq : Nat) :
    (todo idx integration_idx : Nat) → List data_capture → Option (Nat × List data_capture)
  | 0, _, integration_idx, q => some (integration_idx, q)
  | todo + 1, idx, integration_idx, q =>
    if opts.num_integrations = 0 then none
    else
      let blah : data_capture :=
        ⟨(idx * 2 * opts.fft_len) % 2 ^ 32, freq_idx, integration_idx, tv_freq, idx == 0⟩
      submit opts freq_idx tv_freq todo (idx + 1)
        ((integration_idx + 1) % 2 ^ 32 % opts.num_integrations) (q ++ [blah])

/-- One pass through the body of the `while` loop of `main`. -/
def main_iteration (opts : Options) (s : LoopState) (t : Tick) : Option LoopState :=
  let tv_freq := if s.freq_idx = 0 ∧ s.integration_idx = 0 then t.tv else s.tv_freq
  match receive_buffers opts s.dd s.freq_idx s.integration_idx t.rx with
  | none => none
  | some rcv =>
    if rcv.data then
      match submit opts s.freq_idx tv_freq rcv.ret_buffs 0 s.integration_idx
          rcv.dd.queued_buffers with
      | none => none
      | some (integration_idx, q) =>
        let dd := { rcv.dd with queued_buffers := q }
        if integration_idx = 0 then
          if opts.num_freqs = 0 then none
          else
            some ⟨(s.freq_idx + 1) % opts.num_freqs % 2 ^ 16, integration_idx, tv_freq, dd,
              s.requests ++ [rcv.request]⟩
        else some ⟨s.freq_idx, integration_idx, tv_freq, dd, s.requests ++ [rcv.request]⟩
    else some ⟨s.freq_idx, s.integration_idx, tv_freq, rcv.dd, s.requests ++ [rcv.request]⟩

/-- The loop run for as many iterations as there are ticks; the loop may be
stopped (signal, exit timer) after any of them. -/
def run (opts : Options) : LoopState → List Tick → Option LoopState
  | s, [] => some s
  | s, t :: ts =>
    match main_iteration opts s t with
    | none => none
    | some s1 => run opts s1 ts

/-- State in which `main` enters the loop: both indices zero, nothing queued. -/
def main_start (last_buffer_timestamp : Nat)
    (qtunes : Option (List (Option bladerf_quick_tune))) : LoopState :=
  ⟨0, 0, 0, ⟨last_buffer_timestamp, qtunes, []⟩, []⟩

/-- A tick whose receive succeeds and reports timestamp `ts`. -/
def okTick (ts : Nat) : Tick := ⟨0, ⟨0, ts, 0⟩⟩

/-- A tick whose receive fails with "time in past"; the clock then reads `clock`. -/
def pastTick (ts clock : Nat) : Tick := ⟨0, ⟨BLADERF_ERR_TIME_PAST, ts, clock⟩⟩

/-- The plan sizes fit the loop variables `main` declares for them
(`unsigned int integration_idx`, `unsigned short freq_idx`). -/
def Options.fits (opts : Options) : Prop :=
  opts.num_integrations < 2 ^ 32 ∧ opts.num_freqs < 2 ^ 16

instance (opts : Options) : Decidable opts.fits := by
  unfold Options.fits; infer_instance


/-! ## `open_device` and `calibrate_quicktune` -/

/-- What the driver hands back to `open_device`: the status of each call, in the order of the
source, and the value stored by `bladerf_get_timestamp`. -/
structure OpenReplies where
  open_status : Int
  set_frequency_status : Int
  set_sample_rate_status : Int
  set_bandwidth_status : Int
  set_lna_gain_status : Int
  set_rxvga1_status : Int
  set_rxvga2_status : Int
  sync_config_status : Int
  enable_module_status : Int
  get_timestamp_status : Int
  timestamp : Nat
  deriving Repr, DecidableEq

/-- A chain of driver calls each followed by `if( status != 0 ) goto out`: the calls made up
to and including the first one that fails, and whether all of them succeeded. -/
def until_failure : List (Int × DriverCall) → Bool × List DriverCall
  | [] => (true, [])
  | (status, call) :: rest =>
    if status ≠ 0 then (false, [call])
    else ((until_failure rest).1, call :: (until_failure rest).2)

/-- The function `open_device()`: `device_data` is zeroed, the device opened and configured, and the cursor
seeded with the hardware timestamp plus `(10*opts.samplerate)/1000`. The initial RX frequency
is read from `opts.freqs[1]`. Returns the result, `device_data` and the calls made; on a
failure the device is closed again. -/
def open_device (opts : Options) (r : OpenReplies) :
    Option (Bool × device_data_struct × List DriverCall) :=
  if r.open_status ≠ 0 then some (false, ⟨0, none, []⟩, [.open, .close])
  else
    match opts.freqs[1]? with
    | none => none
    | some f =>
      let chain := until_failure
        [(r.set_frequency_status, .set_frequency (f % 2 ^ 32)),
         (r.set_sample_rate_status, .set_sample_rate opts.samplerate),
         (r.set_bandwidth_status, .set_bandwidth opts.samplerate),
         (r.set_lna_gain_status, .set_lna_gain),
         (r.set_rxvga1_status, .set_rxvga1),
         (r.set_rxvga2_status, .set_rxvga2),
         (r.sync_config_status, .sync_config),
         (r.enable_module_status, .enable_module),
         (r.get_timestamp_status, .get_timestamp)]
      if chain.1 then
        some (true,
          ⟨(r.timestamp + (10 * opts.samplerate) % 2 ^ 32 / 1000) % 2 ^ 64, none, []⟩,
          .open :: chain.2)
      else some (false, ⟨0, none, []⟩, .open :: chain.2 ++ [.close])

/-- What the driver hands back while plan entry `idx` is calibrated: the status of
`bladerf_set_frequency`, the status of `bladerf_get_quick_tune`, and the descriptor the latter
stores in `device_data.qtunes[idx]`. -/
structure CalReply where
  tune_status : Int
  qt_status : Int
  qt : bladerf_quick_tune
  deriving Repr, DecidableEq

/-- The loop `for( int idx = 0; idx < opts.num_freqs; idx++ )` of `calibrate_quicktune` with
`todo` iterations left: the value returned (`false` on the first failing call), the table and
the calls made. -/
def calibrate_loop (opts : Options) (replies : Nat → CalReply) :
    (todo idx : Nat) → List (Option bladerf_quick_tune) → List DriverCall →
      Option (Bool × List (Option bladerf_quick_tune) × List DriverCall)
  | 0, _, table, calls => some (true, table, calls)
  | todo + 1, idx, table, calls =>
    match opts.freqs[idx]? with
    | none => none
    | some f =>
      let calls1 := calls ++ [.set_frequency (f % 2 ^ 32)]
      if (replies idx).tune_status ≠ 0 then some (false, table, calls1)
      else if idx < table.length then
        let table1 := table.set idx (some (replies idx).qt)
        let calls2 := calls1 ++ [.get_quick_tune idx]
        if (replies idx).qt_status ≠ 0 then some (false, table1, calls2)
        else calibrate_loop opts replies todo (idx + 1) table1 calls2
      else none

/-- The function `calibrate_quicktune()`: the table is allocated with `opts.num_freqs` slots unless it
exists already, every plan frequency is tuned to and its quick-tune descriptor stored, then
the cursor is overwritten with the value `bladerf_get_timestamp` stores (`clock`; the status
of that call is not looked at). -/
def calibrate_quicktune (opts : Options) (dd : device_data_struct)
    (replies : Nat → CalReply) (clock : Nat) :
    Option (Bool × device_data_struct × List DriverCall) :=
  let table := match dd.qtunes with
    | none => List.replicate opts.num_freqs none
    | some table => table
  match calibrate_loop opts replies opts.num_freqs 0 table [] with
  | none => none
  | some (false, table1, calls) => some (false, { dd with qtunes := some table1 }, calls)
  | some (true, table1, calls) =>
    some (true, { dd with qtunes := some table1, last_buffer_timestamp := clock },
      calls ++ [.get_timestamp])

/-- A valid plan: at least one frequency, `opts.freqs` holds `opts.num_freqs` entries, and each
frequency fits the `unsigned int` it is passed to the driver in. -/
def Options.valid_plan (opts : Options) : Prop :=
  1 ≤ opts.num_freqs ∧ opts.freqs.length = opts.num_freqs ∧ ∀ f ∈ opts.freqs, f < 2 ^ 32

instance (opts : Options) : Decidable opts.valid_plan := by
  unfold Options.valid_plan; infer_instance

/-! ## Auxiliary notions used in the statements -/

/-- The (frequency index, integration index) pair a queued record is tagged with. -/
def tag (c : data_capture) : Nat × Nat := (c.freq_idx, c.integration_idx)

/-- The tag of the `k`-th record of an uninterrupted sweep: integration index `k mod N`,
frequency index `(k div N) mod F`. -/
def sweep_tag (opts : Options) (k : Nat) : Nat × Nat :=
  ((k / opts.num_integrations) % opts.num_freqs, k % opts.num_integrations)

/-- A request that asks for every integration still missing for its frequency. -/
def Request.final (opts : Options) (r : Request) : Bool :=
  decide (r.integration_idx + r.num_buffs = opts.num_integrations)

/-- What holds of the loop state after `p` completed passes. -/
structure Inv (opts : Options) (s : LoopState) (p : Nat) : Prop where
  len : s.dd.queued_buffers.length = opts.num_integrations * p + s.integration_idx
  lt : s.integration_idx < opts.num_integrations
  freq : s.freq_idx = p % opts.num_freqs
  tags : s.dd.queued_buffers.map tag =
    (List.range s.dd.queued_buffers.length).map (sweep_tag opts)
  reqs : ∀ r ∈ s.requests, 1 ≤ r.num_buffs ∧
    r.integration_idx + r.num_buffs ≤ opts.num_integrations ∧
    (r.retune.isSome = r.final opts) ∧
    (r.final opts = true →
      r.retune = some (r.freq_idx, (r.timestamp + 1) % 2 ^ 64))
  finals : (s.requests.filter fun r => r.retune.isSome && decide (r.status = 0)).length = p

/-- The request `receive_buffers` issues from loop state `s` when it asks for `n` blocks and
the driver answers with `status`. -/
def issued (opts : Options) (s : LoopState) (n : Nat) (status : Int) : Request :=
  ⟨s.freq_idx, s.integration_idx, n, target_timestamp opts s.dd.last_buffer_timestamp n,
    if n = remaining opts s.integration_idx then
      some (schedule_tuning s.freq_idx (target_timestamp opts s.dd.last_buffer_timestamp n + 1))
    else none,
    status⟩

/-- The timestamp cursor `receive_buffers` leaves behind for a given driver answer. -/
def cursor_after (opts : Options) (r : RxReply) : Nat :=
  if r.status = 0 then r.timestamp
  else if r.status = BLADERF_ERR_TIME_PAST then (r.clock + opts.samplerate / 1000) % 2 ^ 64
  else r.timestamp

/-- The plan of the sweep scenario: 3 frequencies, 4 integrations each, and a block length
(13107200 samples, 50 MiB per block) for which two blocks fit one request. -/
def scenario : Options := ⟨[100000000, 200000000, 300000000], 3, 1000000, 13107200, 4⟩

/-- The largest block count of one request, `max(floor(budget / buff_size), 1)`. -/
def max_blocks_per_request (opts : Options) : Nat :=
  max (MAX_CAPTURE_BUFF_SIZE / buff_size opts) 1

/-- The number `ceil(N / M)` of requests of at most `M` blocks that cover `N` integrations. -/
def requests_per_pass (opts : Options) : Nat :=
  (opts.num_integrations + max_blocks_per_request opts - 1) / max_blocks_per_request opts

/-- The frequency a driver call tunes the hardware to, if it is a `bladerf_set_frequency`. -/
def tuned_to : DriverCall → Option Nat
  | .set_frequency f => some f
  | _ => none

/-! ## Block-count arithmetic -/

theorem num_buffs_eq (opts : Options) (i : Nat) (hb : buff_size opts ≠ 0) :
    num_buffs opts i =
      some (min (remaining opts i) (max (MAX_CAPTURE_BUFF_SIZE / buff_size opts) 1)) := by
  simp [num_buffs, max_buffs, hb]

theorem remaining_eq (opts : Options) (i : Nat) (hN : opts.num_integrations < 2 ^ 32)
    (hi : i ≤ opts.num_integrations) : remaining opts i = opts.num_integrations - i := by
  unfold remaining
  have h1 : i % 2 ^ 32 = i := Nat.mod_eq_of_lt (by omega)
  rw [h1]
  omega

theorem buff_size_exact (opts : Options) (h : 4 * opts.fft_len < 2 ^ 32) :
    buff_size opts = 4 * opts.fft_len := by
  unfold buff_size
  omega



theorem min_max_budget (rem b : Nat) (hb : 0 < b) (hrem : 1 ≤ rem) :
    (b ≤ MAX_CAPTURE_BUFF_SIZE →
        min rem (max (MAX_CAPTURE_BUFF_SIZE / b) 1) * b ≤ MAX_CAPTURE_BUFF_SIZE) ∧
      (MAX_CAPTURE_BUFF_SIZE < b → min rem (max (MAX_CAPTURE_BUFF_SIZE / b) 1) = 1) := by
  constructor
  · intro hle
    have h1 : 1 ≤ MAX_CAPTURE_BUFF_SIZE / b := (Nat.one_le_div_iff hb).mpr hle
    have h2 : max (MAX_CAPTURE_BUFF_SIZE / b) 1 = MAX_CAPTURE_BUFF_SIZE / b := max_eq_left h1
    rw [h2]
    calc min rem (MAX_CAPTURE_BUFF_SIZE / b) * b
        ≤ MAX_CAPTURE_BUFF_SIZE / b * b := Nat.mul_le_mul_right b (Nat.min_le_right _ _)
      _ ≤ MAX_CAPTURE_BUFF_SIZE := Nat.div_mul_le_self _ _
  · intro hlt
    have h1 : MAX_CAPTURE_BUFF_SIZE / b = 0 := Nat.div_eq_of_lt hlt
    rw [h1]
    simp
    exact hrem

/-- C2 (as amended): when `4*fft_len` fits the 32-bit `buff_size`, the block count times the block
size stays within the capture budget, and it is 1 when one block alone exceeds the budget. -/
theorem num_buffs_within_budget (opts : Options) (integration_idx : Nat)
    (hlen : 1 ≤ opts.fft_len) (hfit : 4 * opts.fft_len < 2 ^ 32)
    (hN : opts.num_integrations < 2 ^ 32) (hi : integration_idx < opts.num_integrations) :
    ∃ n, num_buffs opts integration_idx = some n ∧
      (4 * opts.fft_len ≤ MAX_CAPTURE_BUFF_SIZE → n * (4 * opts.fft_len) ≤ MAX_CAPTURE_BUFF_SIZE) ∧
      (MAX_CAPTURE_BUFF_SIZE < 4 * opts.fft_len → n = 1) := by
  have hbs : buff_size opts = 4 * opts.fft_len := buff_size_exact opts hfit
  have hb : buff_size opts ≠ 0 := by omega
  refine ⟨_, num_buffs_eq opts integration_idx hb, ?_⟩
  rw [remaining_eq opts integration_idx hN (Nat.le_of_lt hi), hbs]
  exact min_max_budget _ _ (by omega) (by omega)

theorem num_buffs_within_budget_witness :
    ∃ n, num_buffs ⟨[], 1, 1000000, 1024, 4⟩ 0 = some n ∧
      (4 * 1024 ≤ MAX_CAPTURE_BUFF_SIZE → n * (4 * 1024) ≤ MAX_CAPTURE_BUFF_SIZE) ∧
      (MAX_CAPTURE_BUFF_SIZE < 4 * 1024 → n = 1) :=
  num_buffs_within_budget ⟨[], 1, 1000000, 1024, 4⟩ 0 (by decide) (by decide) (by decide)
    (by decide)

/-- C2 (counterexample): with `fft_len = 2^30 + 1` the 32-bit `buff_size` is 4, so two blocks
of 4294967300 bytes each are requested at once; with `fft_len = 2^30` the divisor is zero. -/
theorem num_buffs_over_budget :
    num_buffs ⟨[], 1, 1000000, 1073741825, 2⟩ 0 = some 2 ∧
      MAX_CAPTURE_BUFF_SIZE < 4 * 1073741825 ∧
      num_buffs ⟨[], 1, 1000000, 1073741824, 2⟩ 0 = none := by
  decide

/-! ## One call of `receive_buffers` -/

theorem receive_buffers_of_num_buffs (opts : Options) (dd : device_data_struct)
    (f i n : Nat) (r : RxReply) (h : num_buffs opts i = some n) :
    receive_buffers opts dd f i r =
      some ⟨decide (r.status = 0), n,
        { dd with last_buffer_timestamp :=
            if r.status = 0 then r.timestamp
            else if r.status = BLADERF_ERR_TIME_PAST then
              (r.clock + opts.samplerate / 1000) % 2 ^ 64
            else r.timestamp },
        ⟨f, i, n, target_timestamp opts dd.last_buffer_timestamp n,
          if n = remaining opts i then
            some (schedule_tuning f (target_timestamp opts dd.last_buffer_timestamp n + 1))
          else none,
          r.status⟩⟩ := by
  unfold receive_buffers
  rw [h]
  by_cases h0 : r.status = 0
  · simp [h0]
  · by_cases h1 : r.status = BLADERF_ERR_TIME_PAST
    · have hne : ¬ BLADERF_ERR_TIME_PAST = 0 := by decide
      simp [h1, hne]
    · simp [h0, h1]

/-- C1 (the code at the failing input): in a two-frequency plan, the final request of
frequency 0 schedules the retune with quick-tune entry 0, the frequency being captured,
not entry `(0+1) mod 2 = 1`; the timestamp is the request's timestamp plus one. -/
theorem receive_buffers_retunes_to_current :
    (receive_buffers ⟨[100000000, 200000000], 2, 1000000, 1024, 1⟩ ⟨0, none, []⟩ 0 0
        ⟨0, 1024, 0⟩).map (fun rcv => (rcv.request.timestamp, rcv.request.retune)) =
      some (1024, some (0, 1025)) ∧ (0 + 1) % 2 = 1 := by
  decide

/-- C5: after a successful `receive_buffers` the cursor is the timestamp the driver left in the
request metadata; after a "time in past" failure it is the clock value read during recovery
plus `samplerate/1000`, as a 64-bit unsigned sum. -/
theorem receive_buffers_cursor (opts : Options) (dd : device_data_struct)
    (freq_idx integration_idx : Nat) (r : RxReply) (hb : buff_size opts ≠ 0) :
    ∃ rcv, receive_buffers opts dd freq_idx integration_idx r = some rcv ∧
      (rcv.data = true ↔ r.status = 0) ∧
      (r.status = 0 → rcv.dd.last_buffer_timestamp = r.timestamp) ∧
      (r.status = BLADERF_ERR_TIME_PAST →
        rcv.dd.last_buffer_timestamp = (r.clock + opts.samplerate / 1000) % 2 ^ 64 ∧
        (r.clock + opts.samplerate / 1000 < 2 ^ 64 →
          rcv.dd.last_buffer_timestamp = r.clock + opts.samplerate / 1000)) := by
  refine ⟨_, receive_buffers_of_num_buffs opts dd freq_idx integration_idx _ r
    (num_buffs_eq opts integration_idx hb), ?_, ?_, ?_⟩
  · simp
  · intro h0
    simp [h0]
  · intro h1
    have h0 : r.status ≠ 0 := by rw [h1]; decide
    simp only [h0, h1, if_true, if_false]
    exact ⟨rfl, fun hlt => Nat.mod_eq_of_lt hlt⟩

theorem receive_buffers_cursor_witness :
    (∃ rcv, receive_buffers scenario ⟨5000, none, []⟩ 0 0 ⟨0, 26219400, 0⟩ = some rcv ∧
        rcv.data = true ∧ rcv.dd.last_buffer_timestamp = 26219400) ∧
      (∃ rcv, receive_buffers scenario ⟨5000, none, []⟩ 0 0
          ⟨BLADERF_ERR_TIME_PAST, 26219400, 70000000⟩ = some rcv ∧
        rcv.data = false ∧ rcv.dd.last_buffer_timestamp = 70001000) := by
  constructor
  · obtain ⟨rcv, h, hd, hok, _⟩ :=
      receive_buffers_cursor scenario ⟨5000, none, []⟩ 0 0 ⟨0, 26219400, 0⟩ (by decide)
    exact ⟨rcv, h, hd.mpr rfl, hok rfl⟩
  · obtain ⟨rcv, h, hd, _, hpast⟩ :=
      receive_buffers_cursor scenario ⟨5000, none, []⟩ 0 0
        ⟨BLADERF_ERR_TIME_PAST, 26219400, 70000000⟩ (by decide)
    refine ⟨rcv, h, ?_, (hpast rfl).2 (by decide)⟩
    cases hdata : rcv.data with
    | false => rfl
    | true => exact absurd (hd.mp hdata) (by decide)

/-! ## The scanning loop -/

theorem sweep_tag_pass (opts : Options) (p i : Nat) (hi : i < opts.num_integrations) :
    sweep_tag opts (opts.num_integrations * p + i) = (p % opts.num_freqs, i) := by
  have hpos : 0 < opts.num_integrations := by omega
  unfold sweep_tag
  rw [Nat.mul_add_div hpos, Nat.div_eq_of_lt hi, Nat.mul_add_mod, Nat.mod_eq_of_lt hi]
  simp

theorem submit_spec (opts : Options) (f tv : Nat) (hN : opts.num_integrations < 2 ^ 32) :
    ∀ (todo idx i : Nat) (q : List data_capture), i < opts.num_integrations →
      i + todo ≤ opts.num_integrations →
      ∃ q', submit opts f tv todo idx i q = some ((i + todo) % opts.num_integrations, q') ∧
        q'.map tag = q.map tag ++ (List.range todo).map (fun j => (f, i + j)) ∧
        q'.length = q.length + todo := by
  intro todo
  induction todo with
  | zero =>
    intro idx i q hi _
    exact ⟨q, by simp [submit, Nat.mod_eq_of_lt hi], by simp, by simp⟩
  | succ todo ih =>
    intro idx i q hi hle
    have hN0 : opts.num_integrations ≠ 0 := by omega
    have h32 : (i + 1) % 2 ^ 32 = i + 1 := Nat.mod_eq_of_lt (by omega)
    unfold submit
    simp only [hN0, if_false, h32]
    by_cases hlt : i + 1 < opts.num_integrations
    · rw [Nat.mod_eq_of_lt hlt]
      obtain ⟨q', h1, h2, h3⟩ := ih (idx + 1) (i + 1) (q ++ [⟨(idx * 2 * opts.fft_len) % 2 ^ 32,
        f, i, tv, idx == 0⟩]) hlt (by omega)
      refine ⟨q', ?_, ?_, ?_⟩
      · rw [h1, Nat.add_assoc, Nat.add_comm 1 todo]
      · rw [h2, List.range_succ_eq_map]
        simp [tag, Function.comp_def, Nat.add_assoc, Nat.add_comm 1]
      · rw [h3]
        simp
        omega
    · have hz : todo = 0 := by omega
      have hw : i + 1 = opts.num_integrations := by omega
      subst hz
      refine ⟨q ++ [⟨(idx * 2 * opts.fft_len) % 2 ^ 32, f, i, tv, idx == 0⟩], ?_, ?_, ?_⟩
      · simp [submit, hw]
      · simp [tag, List.range_succ]
      · simp

theorem num_buffs_bounds (opts : Options) (i : Nat) (hb : buff_size opts ≠ 0)
    (hN : opts.num_integrations < 2 ^ 32) (hi : i < opts.num_integrations) :
    ∃ n, num_buffs opts i = some n ∧ 1 ≤ n ∧ i + n ≤ opts.num_integrations ∧
      n = min (opts.num_integrations - i) (max (MAX_CAPTURE_BUFF_SIZE / buff_size opts) 1) := by
  refine ⟨_, num_buffs_eq opts i hb, ?_, ?_, ?_⟩
  · rw [remaining_eq opts i hN (Nat.le_of_lt hi)]
    have : 1 ≤ max (MAX_CAPTURE_BUFF_SIZE / buff_size opts) 1 := le_max_right _ _
    exact le_min (by omega) this
  · rw [remaining_eq opts i hN (Nat.le_of_lt hi)]
    have : min (opts.num_integrations - i) (max (MAX_CAPTURE_BUFF_SIZE / buff_size opts) 1)
        ≤ opts.num_integrations - i := Nat.min_le_left _ _
    omega
  · rw [remaining_eq opts i hN (Nat.le_of_lt hi)]

theorem sweep_tags_extend (opts : Options) (p i n f : Nat) (q q' : List data_capture)
    (hlen : q.length = opts.num_integrations * p + i) (hin : i + n ≤ opts.num_integrations)
    (hf : f = p % opts.num_freqs)
    (htags : q.map tag = (List.range q.length).map (sweep_tag opts))
    (h2 : q'.map tag = q.map tag ++ (List.range n).map (fun j => (f, i + j)))
    (h3 : q'.length = q.length + n) :
    q'.map tag = (List.range q'.length).map (sweep_tag opts) := by
  rw [h2, h3, List.range_add, List.map_append, htags, List.map_map]
  congr 1
  apply List.map_congr_left
  intro j hj
  have hjn : j < n := List.mem_range.mp hj
  simp only [Function.comp_apply]
  rw [hlen, Nat.add_assoc, sweep_tag_pass opts p (i + j) (by omega), hf]

theorem main_iteration_spec (opts : Options) (s : LoopState) (t : Tick) (n : Nat)
    (hN : opts.num_integrations < 2 ^ 32) (hF : 1 ≤ opts.num_freqs)
    (hi : s.integration_idx < opts.num_integrations)
    (hn : num_buffs opts s.integration_idx = some n)
    (hle : s.integration_idx + n ≤ opts.num_integrations) :
    ∃ s', main_iteration opts s t = some s' ∧
      s'.requests = s.requests ++ [issued opts s n t.rx.status] ∧
      s'.dd.last_buffer_timestamp = cursor_after opts t.rx ∧
      s'.dd.qtunes = s.dd.qtunes ∧
      (t.rx.status ≠ 0 → s'.freq_idx = s.freq_idx ∧ s'.integration_idx = s.integration_idx ∧
        s'.dd.queued_buffers = s.dd.queued_buffers) ∧
      (t.rx.status = 0 →
        s'.integration_idx = (s.integration_idx + n) % opts.num_integrations ∧
        s'.freq_idx = (if (s.integration_idx + n) % opts.num_integrations = 0 then
          (s.freq_idx + 1) % opts.num_freqs % 2 ^ 16 else s.freq_idx) ∧
        s'.dd.queued_buffers.map tag = s.dd.queued_buffers.map tag ++
          (List.range n).map (fun j => (s.freq_idx, s.integration_idx + j)) ∧
        s'.dd.queued_buffers.length = s.dd.queued_buffers.length + n) := by
  have hrcv := receive_buffers_of_num_buffs opts s.dd s.freq_idx s.integration_idx n t.rx hn
  have hF0 : opts.num_freqs ≠ 0 := by omega
  by_cases h0 : t.rx.status = 0
  · obtain ⟨q', hq1, hq2, hq3⟩ := submit_spec opts s.freq_idx
      (if s.freq_idx = 0 ∧ s.integration_idx = 0 then t.tv else s.tv_freq) hN n 0
      s.integration_idx s.dd.queued_buffers hi hle
    by_cases hw : (s.integration_idx + n) % opts.num_integrations = 0
    · refine ⟨⟨(s.freq_idx + 1) % opts.num_freqs % 2 ^ 16, 0,
        if s.freq_idx = 0 ∧ s.integration_idx = 0 then t.tv else s.tv_freq,
        ⟨t.rx.timestamp, s.dd.qtunes, q'⟩, s.requests ++ [issued opts s n t.rx.status]⟩,
        ?_, rfl, ?_, rfl, ?_, ?_⟩
      · unfold main_iteration
        simp only [hrcv, h0, decide_True, if_true]
        rw [hq1]
        simp [hw, hF0, issued, h0]
      · simp [cursor_after, h0]
      · intro hne; exact absurd h0 hne
      · intro _
        exact ⟨hw.symm, by simp [hw], hq2, hq3⟩
    · refine ⟨⟨s.freq_idx, (s.integration_idx + n) % opts.num_integrations,
        if s.freq_idx = 0 ∧ s.integration_idx = 0 then t.tv else s.tv_freq,
        ⟨t.rx.timestamp, s.dd.qtunes, q'⟩, s.requests ++ [issued opts s n t.rx.status]⟩,
        ?_, rfl, ?_, rfl, ?_, ?_⟩
      · unfold main_iteration
        simp only [hrcv, h0, decide_True, if_true]
        rw [hq1]
        simp [hw, issued, h0]
      · simp [cursor_after, h0]
      · intro hne; exact absurd h0 hne
      · intro _
        exact ⟨rfl, by simp [hw], hq2, hq3⟩
  · refine ⟨⟨s.freq_idx, s.integration_idx,
      if s.freq_idx = 0 ∧ s.integration_idx = 0 then t.tv else s.tv_freq,
      ⟨cursor_after opts t.rx, s.dd.qtunes, s.dd.queued_buffers⟩,
      s.requests ++ [issued opts s n t.rx.status]⟩, ?_, rfl, rfl, rfl, ?_, ?_⟩
    · unfold main_iteration
      simp [hrcv, h0, issued, cursor_after]
    · intro _; exact ⟨rfl, rfl, rfl⟩
    · intro h; exact absurd h h0

theorem issued_retune (opts : Options) (s : LoopState) (n : Nat) (status : Int)
    (hN : opts.num_integrations < 2 ^ 32) (hf : s.freq_idx < 2 ^ 16)
    (hle : s.integration_idx + n ≤ opts.num_integrations) :
    (issued opts s n status).retune =
      if s.integration_idx + n = opts.num_integrations then
        some (s.freq_idx, (target_timestamp opts s.dd.last_buffer_timestamp n + 1) % 2 ^ 64)
      else none := by
  have hrem := remaining_eq opts s.integration_idx hN (by omega)
  unfold issued
  simp only [hrem, schedule_tuning, Nat.mod_eq_of_lt hf]
  by_cases h : s.integration_idx + n = opts.num_integrations
  · have h' : n = opts.num_integrations - s.integration_idx := by omega
    rw [if_pos h, if_pos h']
  · have h' : ¬ n = opts.num_integrations - s.integration_idx := by omega
    rw [if_neg h, if_neg h']

theorem issued_ok (opts : Options) (s : LoopState) (n : Nat) (status : Int)
    (hN : opts.num_integrations < 2 ^ 32) (hf : s.freq_idx < 2 ^ 16) (h1 : 1 ≤ n)
    (hle : s.integration_idx + n ≤ opts.num_integrations) :
    1 ≤ (issued opts s n status).num_buffs ∧
      (issued opts s n status).integration_idx + (issued opts s n status).num_buffs
        ≤ opts.num_integrations ∧
      ((issued opts s n status).retune.isSome = (issued opts s n status).final opts) ∧
      ((issued opts s n status).final opts = true →
        (issued opts s n status).retune = some ((issued opts s n status).freq_idx,
          ((issued opts s n status).timestamp + 1) % 2 ^ 64)) := by
  have hr := issued_retune opts s n status hN hf hle
  refine ⟨h1, hle, ?_, ?_⟩
  · rw [hr]
    by_cases h : s.integration_idx + n = opts.num_integrations
    · simp [Request.final, issued, h]
    · simp [Request.final, issued, h]
  · intro hfin
    have h : s.integration_idx + n = opts.num_integrations := by
      simpa [Request.final, issued] using hfin
    rw [hr, if_pos h]
    rfl

theorem filter_snoc_length {α : Type} (c : α → Bool) (l : List α) (r : α) :
    ((l ++ [r]).filter c).length = (l.filter c).length + (if c r = true then 1 else 0) := by
  rw [List.filter_append, List.length_append]
  by_cases h : c r = true
  · simp [List.filter_cons, h]
  · simp [List.filter_cons, h]

theorem inv_step (opts : Options) (s : LoopState) (p : Nat) (t : Tick)
    (hb : buff_size opts ≠ 0) (hfit : opts.fits) (hF : 1 ≤ opts.num_freqs)
    (hinv : Inv opts s p) :
    ∃ s' n, num_buffs opts s.integration_idx = some n ∧ 1 ≤ n ∧
      n = min (opts.num_integrations - s.integration_idx)
        (max (MAX_CAPTURE_BUFF_SIZE / buff_size opts) 1) ∧
      main_iteration opts s t = some s' ∧
      s'.requests = s.requests ++ [issued opts s n t.rx.status] ∧
      s'.dd.last_buffer_timestamp = cursor_after opts t.rx ∧
      ((t.rx.status ≠ 0 ∧ s'.freq_idx = s.freq_idx ∧ s'.integration_idx = s.integration_idx ∧
          s'.dd.queued_buffers = s.dd.queued_buffers ∧ Inv opts s' p) ∨
        (t.rx.status = 0 ∧ s.integration_idx + n < opts.num_integrations ∧
          s'.freq_idx = s.freq_idx ∧ s'.integration_idx = s.integration_idx + n ∧
          s'.dd.queued_buffers.length = s.dd.queued_buffers.length + n ∧ Inv opts s' p) ∨
        (t.rx.status = 0 ∧ s.integration_idx + n = opts.num_integrations ∧
          s'.freq_idx = (s.freq_idx + 1) % opts.num_freqs ∧ s'.integration_idx = 0 ∧
          s'.dd.queued_buffers.length = s.dd.queued_buffers.length + n ∧
          Inv opts s' (p + 1))) := by
  obtain ⟨hN, hF16⟩ := hfit
  obtain ⟨n, hn, h1, hle, hmin⟩ := num_buffs_bounds opts s.integration_idx hb hN hinv.lt
  obtain ⟨s', hs', hreq, hcur, _, hfail, hok⟩ :=
    main_iteration_spec opts s t n hN hF hinv.lt hn hle
  have hfF : s.freq_idx < opts.num_freqs := by
    rw [hinv.freq]; exact Nat.mod_lt _ (by omega)
  have hf16 : s.freq_idx < 2 ^ 16 := by omega
  have hiss := issued_ok opts s n t.rx.status hN hf16 h1 hle
  have hreqs : ∀ r ∈ s'.requests, 1 ≤ r.num_buffs ∧
      r.integration_idx + r.num_buffs ≤ opts.num_integrations ∧
      (r.retune.isSome = r.final opts) ∧
      (r.final opts = true → r.retune = some (r.freq_idx, (r.timestamp + 1) % 2 ^ 64)) := by
    intro r hr
    rw [hreq, List.mem_append] at hr
    rcases hr with hr | hr
    · exact hinv.reqs r hr
    · rw [List.mem_singleton] at hr
      subst hr
      exact hiss
  have hissfin : (issued opts s n t.rx.status).retune.isSome
      = decide (s.integration_idx + n = opts.num_integrations) := by
    rw [hiss.2.2.1]; rfl
  refine ⟨s', n, hn, h1, hmin, hs', hreq, hcur, ?_⟩
  by_cases h0 : t.rx.status = 0
  · obtain ⟨hi', hf', htag', hlen'⟩ := hok h0
    have htags := sweep_tags_extend opts p s.integration_idx n s.freq_idx _ _ hinv.len hle
      hinv.freq hinv.tags htag' hlen'
    by_cases hw : s.integration_idx + n = opts.num_integrations
    · right; right
      have hmod : (s.integration_idx + n) % opts.num_integrations = 0 := by
        rw [hw]; exact Nat.mod_self _
      rw [hmod] at hi'
      rw [hmod, if_pos rfl, Nat.mod_eq_of_lt (lt_of_lt_of_le (Nat.mod_lt _ (by omega))
        (Nat.le_of_lt hF16))] at hf'
      refine ⟨h0, hw, hf', hi', hlen', ⟨?_, ?_, ?_, htags, hreqs, ?_⟩⟩
      · rw [hlen', hinv.len, hi', Nat.mul_succ]; omega
      · rw [hi']; omega
      · rw [hf', hinv.freq, Nat.mod_add_mod]
      · have hc : ((issued opts s n t.rx.status).retune.isSome &&
            decide ((issued opts s n t.rx.status).status = 0)) = true := by
          rw [hissfin]
          show (decide _ && decide (t.rx.status = 0)) = true
          simp [hw, h0]
        rw [hreq, filter_snoc_length, hinv.finals]
        simp only [hc, if_true]
    · right; left
      have hlt : s.integration_idx + n < opts.num_integrations := by omega
      have hmod : (s.integration_idx + n) % opts.num_integrations = s.integration_idx + n :=
        Nat.mod_eq_of_lt hlt
      rw [hmod] at hi'
      have hne : ¬ s.integration_idx + n = 0 := by omega
      rw [hmod, if_neg hne] at hf'
      refine ⟨h0, hlt, hf', hi', hlen', ⟨?_, ?_, ?_, htags, hreqs, ?_⟩⟩
      · rw [hlen', hinv.len, hi']; omega
      · rw [hi']; exact hlt
      · rw [hf', hinv.freq]
      · have hc : ((issued opts s n t.rx.status).retune.isSome &&
            decide ((issued opts s n t.rx.status).status = 0)) = false := by
          rw [hissfin]
          simp [hw]
        rw [hreq, filter_snoc_length, hinv.finals]
        simp [hc]
  · left
    obtain ⟨hf', hi', hq'⟩ := hfail h0
    refine ⟨h0, hf', hi', hq', ⟨?_, ?_, ?_, ?_, hreqs, ?_⟩⟩
    · rw [hq', hi']; exact hinv.len
    · rw [hi']; exact hinv.lt
    · rw [hf']; exact hinv.freq
    · rw [hq']; exact hinv.tags
    · have hc : ((issued opts s n t.rx.status).retune.isSome &&
          decide ((issued opts s n t.rx.status).status = 0)) = false := by
        show (_ && decide (t.rx.status = 0)) = false
        simp [h0]
      rw [hreq, filter_snoc_length, hinv.finals]
      simp [hc]

theorem inv_start (opts : Options) (ts : Nat) (qt : Option (List (Option bladerf_quick_tune)))
    (hN : 1 ≤ opts.num_integrations) : Inv opts (main_start ts qt) 0 := by
  refine ⟨?_, ?_, ?_, ?_, ?_, ?_⟩
  · simp [main_start]
  · simp only [main_start]; omega
  · simp [main_start]
  · simp [main_start]
  · intro r hr; simp [main_start] at hr
  · simp [main_start]

theorem main_iteration_trap (opts : Options) (s : LoopState) (t : Tick)
    (hb : buff_size opts = 0) : main_iteration opts s t = none := by
  simp [main_iteration, receive_buffers, num_buffs, max_buffs, hb]

theorem run_append (opts : Options) (ticks : List Tick) (t : Tick) :
    ∀ s, run opts s (ticks ++ [t]) = (run opts s ticks).bind (fun s1 => main_iteration opts s1 t) := by
  induction ticks with
  | nil =>
    intro s
    simp only [List.nil_append, run, Option.some_bind]
    cases main_iteration opts s t <;> simp [run]
  | cons t0 ticks ih =>
    intro s
    simp only [List.cons_append, run]
    cases main_iteration opts s t0 with
    | none => simp
    | some s1 => simp [ih s1]

theorem inv_run (opts : Options) (hb : buff_size opts ≠ 0) (hfit : opts.fits)
    (hF : 1 ≤ opts.num_freqs) :
    ∀ (ticks : List Tick) (s : LoopState) (p : Nat), Inv opts s p →
      ∃ s' p', run opts s ticks = some s' ∧ Inv opts s' p' ∧
        s'.requests.map (fun r => r.status) =
          s.requests.map (fun r => r.status) ++ ticks.map (fun t => t.rx.status) := by
  intro ticks
  induction ticks with
  | nil =>
    intro s p hinv
    exact ⟨s, p, rfl, hinv, by simp⟩
  | cons t ticks ih =>
    intro s p hinv
    obtain ⟨s1, n, _, _, _, hs1, hreq, _, hcase⟩ := inv_step opts s p t hb hfit hF hinv
    have hp1 : ∃ p1, Inv opts s1 p1 := by
      rcases hcase with h | h | h
      · exact ⟨p, h.2.2.2.2⟩
      · exact ⟨p, h.2.2.2.2.2⟩
      · exact ⟨p + 1, h.2.2.2.2.2⟩
    obtain ⟨p1, hinv1⟩ := hp1
    obtain ⟨s', p', hrun, hinv', hst⟩ := ih s1 p1 hinv1
    refine ⟨s', p', ?_, hinv', ?_⟩
    · simp only [run, hs1]; exact hrun
    · rw [hst, hreq]
      simp [issued]

theorem reachable_inv (opts : Options) (ts : Nat)
    (qt : Option (List (Option bladerf_quick_tune))) (ticks : List Tick) (s : LoopState)
    (hN : 1 ≤ opts.num_integrations) (hF : 1 ≤ opts.num_freqs) (hfit : opts.fits)
    (hrun : run opts (main_start ts qt) ticks = some s) :
    ∃ p, Inv opts s p ∧
      s.requests.map (fun r => r.status) = ticks.map (fun t => t.rx.status) := by
  by_cases hb : buff_size opts = 0
  · cases ticks with
    | nil =>
      simp only [run, Option.some.injEq] at hrun
      subst hrun
      exact ⟨0, inv_start opts ts qt hN, by simp [main_start]⟩
    | cons t ticks =>
      simp [run, main_iteration_trap opts _ t hb] at hrun
  · obtain ⟨s', p', hrun', hinv', hst⟩ :=
      inv_run opts hb hfit hF ticks (main_start ts qt) 0 (inv_start opts ts qt hN)
    rw [hrun] at hrun'
    simp only [Option.some.injEq] at hrun'
    subst hrun'
    exact ⟨p', hinv', by simpa [main_start] using hst⟩

theorem inv_div_mod (opts : Options) (s : LoopState) (p : Nat) (hinv : Inv opts s p) :
    s.dd.queued_buffers.length % opts.num_integrations = s.integration_idx ∧
      s.dd.queued_buffers.length / opts.num_integrations = p := by
  have hlt := hinv.lt
  have hpos : 0 < opts.num_integrations := by omega
  rw [hinv.len]
  constructor
  · rw [Nat.mul_add_mod, Nat.mod_eq_of_lt hlt]
  · rw [Nat.mul_add_div hpos, Nat.div_eq_of_lt hlt]; rfl

/-- C3: in every run of the capture loop the `k`-th record pushed carries integration index
`k mod num_integrations` and frequency index `(k div num_integrations) mod num_freqs`, so each
pass over a frequency carries the indices 0, 1, ..., num_integrations-1 once each, in
increasing order, under one frequency index; and an iteration changes the frequency index only
when it pushes the integrations up to num_integrations-1 and wraps the integration index to 0,
the frequency index then becoming `(freq_idx+1) mod num_freqs`. -/
theorem capture_loop_records_in_order (opts : Options) (ts : Nat)
    (qt : Option (List (Option bladerf_quick_tune))) (ticks : List Tick) (s : LoopState)
    (hN : 1 ≤ opts.num_integrations) (hF : 1 ≤ opts.num_freqs) (hfit : opts.fits)
    (hrun : run opts (main_start ts qt) ticks = some s) :
    s.dd.queued_buffers.map tag = (List.range s.dd.queued_buffers.length).map (sweep_tag opts) ∧
      s.integration_idx = s.dd.queued_buffers.length % opts.num_integrations ∧
      s.freq_idx = (s.dd.queued_buffers.length / opts.num_integrations) % opts.num_freqs ∧
      ∀ t s', main_iteration opts s t = some s' →
        (s'.freq_idx = s.freq_idx ∧ s.integration_idx ≤ s'.integration_idx ∧
          s'.integration_idx < opts.num_integrations ∧
          s'.dd.queued_buffers.length =
            s.dd.queued_buffers.length + (s'.integration_idx - s.integration_idx)) ∨
        (s'.freq_idx = (s.freq_idx + 1) % opts.num_freqs ∧ s'.integration_idx = 0 ∧
          s'.dd.queued_buffers.length =
            s.dd.queued_buffers.length + (opts.num_integrations - s.integration_idx)) := by
  obtain ⟨p, hinv, _⟩ := reachable_inv opts ts qt ticks s hN hF hfit hrun
  obtain ⟨hmod, hdiv⟩ := inv_div_mod opts s p hinv
  refine ⟨hinv.tags, hmod.symm, ?_, ?_⟩
  · rw [hdiv]; exact hinv.freq
  · intro t s' hstep
    have hb : buff_size opts ≠ 0 := by
      intro hb
      rw [main_iteration_trap opts s t hb] at hstep
      exact absurd hstep (by simp)
    obtain ⟨s1, n, _, h1, _, hs1, _, _, hcase⟩ := inv_step opts s p t hb hfit hF hinv
    rw [hstep] at hs1
    simp only [Option.some.injEq] at hs1
    subst hs1
    rcases hcase with ⟨_, hf, hi, hq, hinv'⟩ | ⟨_, hlt, hf, hi, hlen, _⟩ | ⟨_, hw, hf, hi, hlen, _⟩
    · left
      refine ⟨hf, by omega, by rw [hi]; exact hinv.lt, ?_⟩
      rw [hq, hi]; simp
    · left
      exact ⟨hf, by omega, by omega, by omega⟩
    · right
      exact ⟨hf, hi, by omega⟩

theorem capture_loop_records_in_order_witness :
    ∃ s s', run scenario (main_start 0 none)
        [okTick 100, pastTick 200 5000, okTick 300, okTick 400, okTick 500] = some s ∧
      main_iteration scenario s (okTick 600) = some s' ∧
      s.dd.queued_buffers.map tag = [(0, 0), (0, 1), (0, 2), (0, 3), (1, 0), (1, 1), (1, 2), (1, 3)] ∧
      s.dd.queued_buffers.map tag =
        (List.range s.dd.queued_buffers.length).map (sweep_tag scenario) ∧
      s.freq_idx = 2 ∧ s'.freq_idx = 2 ∧ s'.integration_idx = 2 ∧
      ((s'.freq_idx = s.freq_idx ∧ s.integration_idx ≤ s'.integration_idx ∧
          s'.integration_idx < 4 ∧
          s'.dd.queued_buffers.length =
            s.dd.queued_buffers.length + (s'.integration_idx - s.integration_idx)) ∨
        (s'.freq_idx = (s.freq_idx + 1) % 3 ∧ s'.integration_idx = 0 ∧
          s'.dd.queued_buffers.length = s.dd.queued_buffers.length + (4 - s.integration_idx))) :=
  ⟨_, _, rfl, rfl, by decide,
    (capture_loop_records_in_order scenario 0 none
      [okTick 100, pastTick 200 5000, okTick 300, okTick 400, okTick 500] _
      (by decide) (by decide) (by decide) rfl).1, rfl, rfl, rfl,
    (capture_loop_records_in_order scenario 0 none
      [okTick 100, pastTick 200 5000, okTick 300, okTick 400, okTick 500] _
      (by decide) (by decide) (by decide) rfl).2.2.2 (okTick 600) _ rfl⟩

/-- C4: starting from (freq_idx, integration_idx) = (0, 0) with at least one integration and one
frequency, every state the loop reaches has integration_idx below num_integrations and freq_idx
below num_freqs, and so has every record in the queue; whenever the block size is nonzero the
loop does reach a state after any sequence of successful or failed requests. -/
theorem capture_loop_indices_in_range (opts : Options) (ts : Nat)
    (qt : Option (List (Option bladerf_quick_tune))) (ticks : List Tick)
    (hN : 1 ≤ opts.num_integrations) (hF : 1 ≤ opts.num_freqs) (hfit : opts.fits) :
    (∀ s, run opts (main_start ts qt) ticks = some s →
        s.integration_idx < opts.num_integrations ∧ s.freq_idx < opts.num_freqs ∧
        ∀ c ∈ s.dd.queued_buffers,
          c.integration_idx < opts.num_integrations ∧ c.freq_idx < opts.num_freqs) ∧
      (buff_size opts ≠ 0 → ∃ s, run opts (main_start ts qt) ticks = some s) := by
  constructor
  · intro s hrun
    obtain ⟨p, hinv, _⟩ := reachable_inv opts ts qt ticks s hN hF hfit hrun
    refine ⟨hinv.lt, ?_, ?_⟩
    · rw [hinv.freq]; exact Nat.mod_lt _ (by omega)
    · intro c hc
      have hmem : tag c ∈ s.dd.queued_buffers.map tag := List.mem_map_of_mem tag hc
      rw [hinv.tags, List.mem_map] at hmem
      obtain ⟨k, _, hk⟩ := hmem
      have h1 : c.integration_idx = k % opts.num_integrations := by
        have := congrArg Prod.snd hk
        simpa [tag, sweep_tag] using this.symm
      have h2 : c.freq_idx = (k / opts.num_integrations) % opts.num_freqs := by
        have := congrArg Prod.fst hk
        simpa [tag, sweep_tag] using this.symm
      rw [h1, h2]
      exact ⟨Nat.mod_lt _ (by omega), Nat.mod_lt _ (by omega)⟩
  · intro hb
    obtain ⟨s', _, hrun', _, _⟩ :=
      inv_run opts hb hfit hF ticks (main_start ts qt) 0 (inv_start opts ts qt hN)
    exact ⟨s', hrun'⟩

theorem capture_loop_indices_in_range_witness :
    ∃ s, run scenario (main_start 0 none)
        [okTick 100, pastTick 200 5000, okTick 300, okTick 400, okTick 500] = some s ∧
      s.integration_idx < 4 ∧ s.freq_idx < 3 ∧
      ∀ c ∈ s.dd.queued_buffers, c.integration_idx < 4 ∧ c.freq_idx < 3 :=
  ⟨_, rfl,
    (capture_loop_indices_in_range scenario 0 none
      [okTick 100, pastTick 200 5000, okTick 300, okTick 400, okTick 500]
      (by decide) (by decide) (by decide)).1 _ rfl⟩

/-! ## Recovery from "time in past" -/

theorem main_iteration_failed (opts : Options) (s : LoopState) (t : Tick) (n : Nat)
    (hn : num_buffs opts s.integration_idx = some n) (h0 : t.rx.status ≠ 0) :
    main_iteration opts s t =
      some ⟨s.freq_idx, s.integration_idx,
        if s.freq_idx = 0 ∧ s.integration_idx = 0 then t.tv else s.tv_freq,
        ⟨cursor_after opts t.rx, s.dd.qtunes, s.dd.queued_buffers⟩,
        s.requests ++ [issued opts s n t.rx.status]⟩ := by
  have hrcv := receive_buffers_of_num_buffs opts s.dd s.freq_idx s.integration_idx n t.rx hn
  unfold main_iteration
  simp [hrcv, h0, issued, cursor_after]

/-- C6 (as amended): a receive that fails with "time in past" returns no buffer and leaves the
queue, freq_idx and integration_idx unchanged; and when the clock value read during recovery
lies beyond the failed request's timestamp and the 64-bit sums of the next request do not wrap,
the next request's timestamp is strictly greater than the failed one. -/
theorem time_past_recovery (opts : Options) (s : LoopState) (t t2 : Tick)
    (hb : buff_size opts ≠ 0) (hst : t.rx.status = BLADERF_ERR_TIME_PAST) :
    ∃ n rcv s' rcv2, num_buffs opts s.integration_idx = some n ∧
      receive_buffers opts s.dd s.freq_idx s.integration_idx t.rx = some rcv ∧
      rcv.data = false ∧
      main_iteration opts s t = some s' ∧
      s'.dd.queued_buffers = s.dd.queued_buffers ∧ s'.freq_idx = s.freq_idx ∧
      s'.integration_idx = s.integration_idx ∧
      receive_buffers opts s'.dd s'.freq_idx s'.integration_idx t2.rx = some rcv2 ∧
      (rcv.request.timestamp < t.rx.clock →
        t.rx.clock + opts.samplerate / 1000 + (n * opts.fft_len) % 2 ^ 32 < 2 ^ 64 →
        rcv.request.timestamp < rcv2.request.timestamp) := by
  have hn := num_buffs_eq opts s.integration_idx hb
  have h0 : t.rx.status ≠ 0 := by rw [hst]; decide
  refine ⟨_, _, _, _, hn,
    receive_buffers_of_num_buffs opts s.dd s.freq_idx s.integration_idx _ t.rx hn, ?_,
    main_iteration_failed opts s t _ hn h0, rfl, rfl, rfl,
    receive_buffers_of_num_buffs opts _ s.freq_idx s.integration_idx _ t2.rx hn, ?_⟩
  · simp [h0]
  · intro hpast hwrap
    simp only [cursor_after, hst, h0, if_true, if_false] at *
    simp only [target_timestamp] at *
    have hne : ¬ BLADERF_ERR_TIME_PAST = 0 := by decide
    simp only [hne, if_false]
    have h1 : (t.rx.clock + opts.samplerate / 1000) % 2 ^ 64
        = t.rx.clock + opts.samplerate / 1000 := Nat.mod_eq_of_lt (by omega)
    rw [h1, Nat.mod_eq_of_lt hwrap]
    omega

theorem time_past_recovery_witness :
    ∃ rcv s' rcv2,
      receive_buffers scenario (main_start 1000 none).dd 0 0 (pastTick 26215400 30000000).rx
        = some rcv ∧
      rcv.data = false ∧
      main_iteration scenario (main_start 1000 none) (pastTick 26215400 30000000) = some s' ∧
      s'.dd.queued_buffers = [] ∧ s'.freq_idx = 0 ∧ s'.integration_idx = 0 ∧
      receive_buffers scenario s'.dd s'.freq_idx s'.integration_idx (okTick 56215400).rx
        = some rcv2 ∧
      rcv.request.timestamp = 26215400 ∧
      rcv.request.timestamp < rcv2.request.timestamp := by
  obtain ⟨n, rcv, s', rcv2, hn, h1, h2, h3, h4, h5, h6, h7, h8⟩ :=
    time_past_recovery scenario (main_start 1000 none) (pastTick 26215400 30000000)
      (okTick 56215400) (by decide) rfl
  have en : num_buffs scenario 0 = some 2 := by decide
  have hn2 : n = 2 := (Option.some.inj (hn.symm.trans en))
  subst hn2
  have e1 : receive_buffers scenario (main_start 1000 none).dd 0 0
      (pastTick 26215400 30000000).rx
      = some ⟨false, 2, ⟨30001000, none, []⟩, ⟨0, 0, 2, 26215400, none, BLADERF_ERR_TIME_PAST⟩⟩ := by
    decide
  have hr := Option.some.inj (h1.symm.trans e1)
  have hts : rcv.request.timestamp = 26215400 := by rw [hr]
  refine ⟨rcv, s', rcv2, h1, h2, h3, h4, h5, h6, h7, hts, h8 ?_ ?_⟩
  · rw [hts]; decide
  · decide

/-- C6 (counterexample): the cursor is 3000 ticks below 2^64 and the receive for timestamp
2^64 - 1976 fails with "time in past", the clock reading 2^64 - 1 during recovery; the cursor
wraps to 999 and the next request is for timestamp 2023, below the failed one. -/
theorem time_past_next_target_wraps :
    (run ⟨[100000000], 1, 1000000, 1024, 1⟩ (main_start 18446744073709548616 none)
        [pastTick 18446744073709549640 18446744073709551615, okTick 2023]).map
        (fun s => s.requests.map (fun r => (r.timestamp, r.status)))
      = some [(18446744073709549640, BLADERF_ERR_TIME_PAST), (2023, 0)] ∧
    18446744073709549640 < 18446744073709551615 ∧ ¬ 18446744073709549640 < 2023 := by
  decide

/-! ## Retune scheduling -/

/-- C7 (as amended): in every run a request invokes the retune scheduler exactly when it asks
for all integrations still missing for its frequency, never when it leaves some to be
captured; the successful ones among these calls number one per completed pass, and in a run
where every receive succeeds the scheduler is invoked exactly once per completed pass. -/
theorem retune_only_by_final_requests (opts : Options) (ts : Nat)
    (qt : Option (List (Option bladerf_quick_tune))) (ticks : List Tick) (s : LoopState)
    (hN : 1 ≤ opts.num_integrations) (hF : 1 ≤ opts.num_freqs) (hfit : opts.fits)
    (hrun : run opts (main_start ts qt) ticks = some s) :
    (∀ r ∈ s.requests, r.integration_idx + r.num_buffs ≤ opts.num_integrations ∧
        (r.retune.isSome = true ↔ r.integration_idx + r.num_buffs = opts.num_integrations)) ∧
      (s.requests.filter fun r => r.retune.isSome && decide (r.status = 0)).length =
        s.dd.queued_buffers.length / opts.num_integrations ∧
      ((∀ t ∈ ticks, t.rx.status = 0) →
        (s.requests.filter fun r => r.retune.isSome).length =
          s.dd.queued_buffers.length / opts.num_integrations) := by
  obtain ⟨p, hinv, hst⟩ := reachable_inv opts ts qt ticks s hN hF hfit hrun
  obtain ⟨_, hdiv⟩ := inv_div_mod opts s p hinv
  refine ⟨?_, ?_, ?_⟩
  · intro r hr
    obtain ⟨_, hle, hfin, _⟩ := hinv.reqs r hr
    refine ⟨hle, ?_⟩
    rw [hfin]
    simp [Request.final]
  · rw [hdiv]; exact hinv.finals
  · intro hok
    have hall : ∀ r ∈ s.requests, r.status = 0 := by
      intro r hr
      have hmem : r.status ∈ s.requests.map (fun r => r.status) :=
        List.mem_map_of_mem (fun r => r.status) hr
      rw [hst, List.mem_map] at hmem
      obtain ⟨t, ht, hteq⟩ := hmem
      rw [← hteq]; exact hok t ht
    have hfil : (s.requests.filter fun r => r.retune.isSome) =
        (s.requests.filter fun r => r.retune.isSome && decide (r.status = 0)) := by
      apply List.filter_congr
      intro r hr
      simp [hall r hr]
    rw [hfil, hdiv]; exact hinv.finals

theorem retune_only_by_final_requests_witness :
    ∃ s, run scenario (main_start 0 none)
        [okTick 100, okTick 200, okTick 300, okTick 400, okTick 500, okTick 600] = some s ∧
      s.requests.map (fun r => (r.freq_idx, r.integration_idx, r.num_buffs, r.retune.isSome))
        = [(0, 0, 2, false), (0, 2, 2, true), (1, 0, 2, false), (1, 2, 2, true),
            (2, 0, 2, false), (2, 2, 2, true)] ∧
      (s.requests.filter fun r => r.retune.isSome).length = 3 :=
  ⟨_, rfl, by decide,
    (retune_only_by_final_requests scenario 0 none
      [okTick 100, okTick 200, okTick 300, okTick 400, okTick 500, okTick 600] _
      (by decide) (by decide) (by decide) rfl).2.2 (by decide)⟩

/-- C7 (counterexample): with one integration per frequency, a first attempt failing with "time
in past" and a successful retry, the single pass sees two retune calls; and in the scenario of 3
frequencies, 4 integrations and 2 blocks per request, one sweep of six successful requests
makes three retune calls, the third during frequency 2's final request. -/
theorem retune_repeated_after_failure :
    (run ⟨[100000000], 1, 1000000, 1024, 1⟩ (main_start 0 none)
        [pastTick 1024 5000, okTick 7024]).map
        (fun s => (s.requests.map (fun r => (r.integration_idx, r.status, r.retune)),
          s.dd.queued_buffers.length))
      = some ([(0, BLADERF_ERR_TIME_PAST, some (0, 1025)), (0, 0, some (0, 7025))], 1) ∧
    (run scenario (main_start 0 none)
        [okTick 100, okTick 200, okTick 300, okTick 400, okTick 500, okTick 600]).map
        (fun s => (s.freq_idx, s.integration_idx,
          s.requests.map (fun r => (r.freq_idx, r.integration_idx, r.num_buffs, r.retune.isSome))))
      = some (0, 0, [(0, 0, 2, false), (0, 2, 2, true), (1, 0, 2, false), (1, 2, 2, true),
          (2, 0, 2, false), (2, 2, 2, true)]) :=
  ⟨rfl, rfl⟩

/-! ## Requests of one pass -/

theorem ceil_bounds (N M : Nat) (hN : 1 ≤ N) (hM : 1 ≤ M) :
    1 ≤ (N + M - 1) / M ∧ ((N + M - 1) / M - 1) * M < N ∧ N ≤ (N + M - 1) / M * M := by
  have h1 := Nat.div_add_mod (N + M - 1) M
  have h2 : (N + M - 1) % M < M := Nat.mod_lt _ (by omega)
  have hc1 : 1 ≤ (N + M - 1) / M := (Nat.one_le_div_iff (by omega)).mpr (by omega)
  obtain ⟨c, hc⟩ : ∃ c, (N + M - 1) / M = c + 1 := ⟨(N + M - 1) / M - 1, by omega⟩
  rw [hc] at h1 ⊢
  have h3 : M * (c + 1) = c * M + M := by rw [Nat.mul_comm, Nat.succ_mul]
  have h4 : (c + 1) * M = c * M + M := Nat.succ_mul c M
  have h5 : c + 1 - 1 = c := rfl
  rw [h5, h4]
  rw [h3] at h1
  refine ⟨by omega, by omega, by omega⟩

theorem pass_within (opts : Options) (hb : buff_size opts ≠ 0) (hfit : opts.fits)
    (hF : 1 ≤ opts.num_freqs) :
    ∀ (ticks : List Tick) (s : LoopState) (p : Nat), Inv opts s p →
      (∀ t ∈ ticks, t.rx.status = 0) →
      s.integration_idx + ticks.length * max_blocks_per_request opts < opts.num_integrations →
      ∃ s', run opts s ticks = some s' ∧ Inv opts s' p ∧ s'.freq_idx = s.freq_idx ∧
        s'.integration_idx = s.integration_idx + ticks.length * max_blocks_per_request opts ∧
        s'.requests.map (fun r => r.num_buffs) = s.requests.map (fun r => r.num_buffs) ++
          List.replicate ticks.length (max_blocks_per_request opts) ∧
        s'.dd.queued_buffers.length = s.dd.queued_buffers.length +
          ticks.length * max_blocks_per_request opts := by
  intro ticks
  induction ticks with
  | nil =>
    intro s p hinv _ _
    exact ⟨s, rfl, hinv, rfl, by simp, by simp, by simp⟩
  | cons t ticks ih =>
    intro s p hinv hok hlt
    have ht0 : t.rx.status = 0 := hok t (List.mem_cons_self _ _)
    have hlen : (t :: ticks).length * max_blocks_per_request opts
        = max_blocks_per_request opts + ticks.length * max_blocks_per_request opts := by
      rw [List.length_cons, Nat.succ_mul]; omega
    rw [hlen] at hlt
    obtain ⟨s1, n, _, _, hmin, hs1, hreq, _, hcase⟩ := inv_step opts s p t hb hfit hF hinv
    have hnM : n = max_blocks_per_request opts := by
      rw [hmin]
      apply min_eq_right
      show max_blocks_per_request opts ≤ _
      omega
    rcases hcase with ⟨hne, _⟩ | ⟨_, _, hf, hi, hq, hinv1⟩ | ⟨_, hw, _⟩
    · exact absurd ht0 hne
    · obtain ⟨s', hrun, hinv', hf', hi', hr', hq'⟩ := ih s1 p hinv1
        (fun t' ht' => hok t' (List.mem_cons_of_mem _ ht')) (by rw [hi, hnM]; omega)
      refine ⟨s', ?_, hinv', ?_, ?_, ?_, ?_⟩
      · simp only [run, hs1]; exact hrun
      · rw [hf', hf]
      · rw [hi', hi, hnM, hlen]; omega
      · rw [hr', hreq, List.map_append, List.length_cons, List.replicate_succ]
        simp [issued, hnM]
      · rw [hq', hq, hnM, hlen]; omega
    · rw [hnM] at hw; omega

theorem pass_last (opts : Options) (s : LoopState) (p : Nat) (t : Tick)
    (hb : buff_size opts ≠ 0) (hfit : opts.fits) (hF : 1 ≤ opts.num_freqs)
    (hinv : Inv opts s p) (ht : t.rx.status = 0)
    (hlast : opts.num_integrations ≤ s.integration_idx + max_blocks_per_request opts) :
    ∃ s', main_iteration opts s t = some s' ∧
      s'.freq_idx = (s.freq_idx + 1) % opts.num_freqs ∧ s'.integration_idx = 0 ∧
      s'.requests.map (fun r => r.num_buffs) = s.requests.map (fun r => r.num_buffs) ++
        [opts.num_integrations - s.integration_idx] ∧
      s'.dd.queued_buffers.length = s.dd.queued_buffers.length +
        (opts.num_integrations - s.integration_idx) := by
  obtain ⟨s1, n, _, _, hmin, hs1, hreq, _, hcase⟩ := inv_step opts s p t hb hfit hF hinv
  have hn : n = opts.num_integrations - s.integration_idx := by
    rw [hmin]
    apply min_eq_left
    show _ ≤ max_blocks_per_request opts
    omega
  have hlt := hinv.lt
  rcases hcase with ⟨hne, _⟩ | ⟨_, hlt', _⟩ | ⟨_, _, hf, hi, hq, _⟩
  · exact absurd ht hne
  · omega
  · refine ⟨s1, hs1, hf, hi, ?_, ?_⟩
    · rw [hreq, List.map_append]
      simp [issued, hn]
    · rw [hq, hn]

/-- C8 (as amended): each request asks for `min(remaining integrations, M)` blocks with
`M = max(floor(budget / buff_size), 1)`; in a run where every receive succeeds, a pass that
starts at integration index 0 is still on the same frequency after fewer than `ceil(N/M)`
requests, all of `M` blocks, and is completed by request number `ceil(N/M)`, which asks for the
remainder; the block counts sum to `N`. -/
theorem pass_request_sizes (opts : Options) (ts : Nat)
    (qt : Option (List (Option bladerf_quick_tune))) (pre ticks : List Tick) (s : LoopState)
    (hb : buff_size opts ≠ 0) (hN : 1 ≤ opts.num_integrations) (hF : 1 ≤ opts.num_freqs)
    (hfit : opts.fits) (hrun : run opts (main_start ts qt) pre = some s)
    (hs : s.integration_idx = 0) (hok : ∀ t ∈ ticks, t.rx.status = 0) :
    (∀ i, i < opts.num_integrations →
        num_buffs opts i = some (min (opts.num_integrations - i) (max_blocks_per_request opts))) ∧
      (ticks.length < requests_per_pass opts →
        ∃ s', run opts s ticks = some s' ∧ s'.freq_idx = s.freq_idx ∧
          s'.integration_idx = ticks.length * max_blocks_per_request opts ∧
          s'.integration_idx < opts.num_integrations ∧
          s'.requests.map (fun r => r.num_buffs) = s.requests.map (fun r => r.num_buffs) ++
            List.replicate ticks.length (max_blocks_per_request opts)) ∧
      (ticks.length = requests_per_pass opts →
        ∃ s', run opts s ticks = some s' ∧
          s'.freq_idx = (s.freq_idx + 1) % opts.num_freqs ∧ s'.integration_idx = 0 ∧
          s'.requests.map (fun r => r.num_buffs) = s.requests.map (fun r => r.num_buffs) ++
            (List.replicate (requests_per_pass opts - 1) (max_blocks_per_request opts) ++
              [opts.num_integrations
                - (requests_per_pass opts - 1) * max_blocks_per_request opts]) ∧
          1 ≤ opts.num_integrations
            - (requests_per_pass opts - 1) * max_blocks_per_request opts ∧
          opts.num_integrations - (requests_per_pass opts - 1) * max_blocks_per_request opts
            ≤ max_blocks_per_request opts ∧
          (List.replicate (requests_per_pass opts - 1) (max_blocks_per_request opts) ++
              [opts.num_integrations
                - (requests_per_pass opts - 1) * max_blocks_per_request opts]).sum
            = opts.num_integrations ∧
          s'.dd.queued_buffers.length = s.dd.queued_buffers.length + opts.num_integrations) := by
  obtain ⟨p, hinv, _⟩ := reachable_inv opts ts qt pre s hN hF hfit hrun
  have hM : 1 ≤ max_blocks_per_request opts := le_max_right _ _
  obtain ⟨hc1, hc2, hc3⟩ := ceil_bounds opts.num_integrations (max_blocks_per_request opts) hN hM
  have hc : (opts.num_integrations + max_blocks_per_request opts - 1)
      / max_blocks_per_request opts = requests_per_pass opts := rfl
  rw [hc] at hc1 hc2 hc3
  refine ⟨?_, ?_, ?_⟩
  · intro i hi
    rw [num_buffs_eq opts i hb, remaining_eq opts i hfit.1 (Nat.le_of_lt hi)]
    rfl
  · intro hlt
    have hmul : ticks.length * max_blocks_per_request opts
        ≤ (requests_per_pass opts - 1) * max_blocks_per_request opts :=
      Nat.mul_le_mul_right _ (by omega)
    obtain ⟨s', hrun', _, hf', hi', hr', _⟩ := pass_within opts hb hfit hF ticks s p hinv hok
      (by rw [hs]; omega)
    rw [hs, Nat.zero_add] at hi'
    exact ⟨s', hrun', hf', hi', by rw [hi']; omega, hr'⟩
  · intro hlen
    have hne : ticks ≠ [] := by
      intro h; rw [h] at hlen; simp at hlen; omega
    have hsplit := List.dropLast_append_getLast hne
    have hdl : ticks.dropLast.length = requests_per_pass opts - 1 := by
      rw [List.length_dropLast, hlen]
    have hokd : ∀ t ∈ ticks.dropLast, t.rx.status = 0 :=
      fun t ht => hok t (List.mem_of_mem_dropLast ht)
    have hokl : (ticks.getLast hne).rx.status = 0 := hok _ (List.getLast_mem hne)
    obtain ⟨s1, hrun1, hinv1, hf1, hi1, hr1, hq1⟩ :=
      pass_within opts hb hfit hF ticks.dropLast s p hinv hokd (by rw [hs, hdl]; omega)
    rw [hs, Nat.zero_add, hdl] at hi1
    rw [hdl] at hr1 hq1
    have hsucc : (requests_per_pass opts - 1) * max_blocks_per_request opts
        + max_blocks_per_request opts
        = requests_per_pass opts * max_blocks_per_request opts := by
      rw [← Nat.succ_mul]
      congr 1
      omega
    obtain ⟨s', hstep, hf', hi', hr', hq'⟩ := pass_last opts s1 p (ticks.getLast hne) hb hfit hF
      hinv1 hokl (by rw [hi1]; omega)
    refine ⟨s', ?_, ?_, hi', ?_, by omega, by omega, ?_, ?_⟩
    · rw [← hsplit, run_append, hrun1]
      exact hstep
    · rw [hf', hf1]
    · rw [hr', hr1, hi1, List.append_assoc]
    · rw [List.sum_append, List.sum_replicate]
      simp only [List.sum_cons, List.sum_nil, smul_eq_mul]
      omega
    · rw [hq', hq1, hi1]; omega

theorem pass_request_sizes_witness :
    ∃ s', run scenario (main_start 0 none) [okTick 100, okTick 200] = some s' ∧
      max_blocks_per_request scenario = 2 ∧ requests_per_pass scenario = 2 ∧
      s'.freq_idx = 1 ∧ s'.integration_idx = 0 ∧
      s'.requests.map (fun r => r.num_buffs) = [2, 2] ∧
      (run scenario (main_start 0 none)
          [okTick 100, okTick 200, okTick 300, okTick 400, okTick 500, okTick 600]).map
          (fun s => s.requests.map (fun r => (r.freq_idx, r.num_buffs)))
        = some [(0, 2), (0, 2), (1, 2), (1, 2), (2, 2), (2, 2)] := by
  obtain ⟨s', h1, h2, h3, h4, _⟩ :=
    (pass_request_sizes scenario 0 none [] [okTick 100, okTick 200] (main_start 0 none)
      (by decide) (by decide) (by decide) (by decide) rfl rfl (by decide)).2.2 (by decide)
  exact ⟨s', h1, by decide, by decide, h2, h3, h4, rfl⟩

/-- C8 (counterexample): with block length 1024 the budget of 100 MiB admits 25600 blocks per
request, not 2, so with 4 integrations each frequency is covered by one request of 4 blocks. -/
theorem block_length_1024_single_request :
    max_buffs ⟨[100000000, 200000000, 300000000], 3, 1000000, 1024, 4⟩ = some 25600 ∧
    (run ⟨[100000000, 200000000, 300000000], 3, 1000000, 1024, 4⟩ (main_start 0 none)
        [okTick 100, okTick 200, okTick 300]).map
        (fun s => s.requests.map (fun r => (r.freq_idx, r.num_buffs)))
      = some [(0, 4), (1, 4), (2, 4)] :=
  ⟨by decide, rfl⟩

/-! ## Calibration and device set-up -/

theorem calibrate_loop_spec (opts : Options) (replies : Nat → CalReply)
    (hfreq : ∀ f ∈ opts.freqs, f < 2 ^ 32) :
    ∀ (todo idx : Nat) (table : List (Option bladerf_quick_tune)) (calls : List DriverCall),
      idx + todo = opts.freqs.length → table.length = opts.freqs.length →
      ∃ ok table' calls', calibrate_loop opts replies todo idx table calls
          = some (ok, table', calls') ∧
        (ok = true →
          calls' = calls ++ (List.range' idx todo).flatMap
            (fun i => [DriverCall.set_frequency (opts.freqs.getD i 0), .get_quick_tune i]) ∧
          table'.length = table.length ∧
          (∀ i, idx ≤ i → i < idx + todo → table'[i]? = some (some (replies i).qt)) ∧
          (∀ i, i < idx → table'[i]? = table[i]?)) ∧
        ((∀ i, idx ≤ i → i < idx + todo →
            (replies i).tune_status = 0 ∧ (replies i).qt_status = 0) → ok = true) := by
  intro todo
  induction todo with
  | zero =>
    intro idx table calls _ _
    refine ⟨true, table, calls, rfl, ?_, fun _ => rfl⟩
    intro _
    refine ⟨by simp, rfl, ?_, fun _ _ => rfl⟩
    intro i h1 h2; omega
  | succ todo ih =>
    intro idx table calls hidx hlen
    have hlt : idx < opts.freqs.length := by omega
    have hget : opts.freqs[idx]? = some (opts.freqs[idx]) := List.getElem?_eq_getElem hlt
    have hmod : opts.freqs[idx] % 2 ^ 32 = opts.freqs[idx] :=
      Nat.mod_eq_of_lt (hfreq _ (List.getElem_mem hlt))
    have hgetD : opts.freqs.getD idx 0 = opts.freqs[idx] := by
      simp [List.getD, hget]
    have hlt' : idx < table.length := by omega
    unfold calibrate_loop
    simp only [hget, hmod]
    by_cases h1 : (replies idx).tune_status = 0
    · by_cases h2 : (replies idx).qt_status = 0
      · simp only [h1, h2, ne_eq, not_true_eq_false, if_false, hlt', if_true]
        obtain ⟨ok, table', calls', hrun, hok, hall⟩ := ih (idx + 1)
          (table.set idx (some (replies idx).qt))
          (calls ++ [.set_frequency opts.freqs[idx]] ++ [.get_quick_tune idx])
          (by omega) (by rw [List.length_set]; exact hlen)
        refine ⟨ok, table', calls', hrun, ?_, ?_⟩
        · intro hk
          obtain ⟨hc, hl, hset, hkeep⟩ := hok hk
          refine ⟨?_, ?_, ?_, ?_⟩
          · rw [hc, List.range'_succ, List.flatMap_cons, hgetD]
            simp
          · rw [hl, List.length_set]
          · intro i hi1 hi2
            by_cases hi : i = idx
            · subst hi
              rw [hkeep i (by omega), List.getElem?_set_self hlt']
            · exact hset i (by omega) (by omega)
          · intro i hi
            rw [hkeep i (by omega), List.getElem?_set_ne (by omega)]
        · intro hst
          exact hall (fun i hi1 hi2 => hst i (by omega) (by omega))
      · simp only [h1, h2, ne_eq, not_true_eq_false, not_false_eq_true, if_false, hlt', if_true]
        refine ⟨false, _, _, rfl, ?_, ?_⟩
        · intro h; exact absurd h (by decide)
        · intro hst
          exact absurd (hst idx (Nat.le_refl _) (by omega)).2 h2
    · simp only [h1, ne_eq, not_false_eq_true, if_true]
      refine ⟨false, _, _, rfl, ?_, ?_⟩
      · intro h; exact absurd h (by decide)
      · intro hst
        exact absurd (hst idx (Nat.le_refl _) (by omega)).1 h1

theorem tuned_to_flatMap (g : Nat → Nat) (l : List Nat) :
    (l.flatMap fun i => [DriverCall.set_frequency (g i), .get_quick_tune i]).filterMap tuned_to
      = l.map g := by
  induction l with
  | nil => rfl
  | cons a l ih =>
    rw [List.flatMap_cons, List.filterMap_append, ih]
    simp [tuned_to]

theorem map_getD_range (l : List Nat) : (List.range l.length).map (fun i => l.getD i 0) = l := by
  apply List.ext_getElem
  · simp
  · intro i h1 h2
    simp [List.getD, List.getElem?_eq_getElem h2]

/-- C9: for every valid plan on which `calibrate_quicktune` returns true, the hardware was tuned
to freqs[0], ..., freqs[num_freqs-1] in plan order, each tune followed by the capture of the
descriptor for that index; the table holds num_freqs entries, entry idx being the descriptor
captured while tuned to freqs[idx]; and the cursor equals the timestamp read after the last
capture, whatever it was before. The call returns true when no driver call fails. -/
theorem calibrate_quicktune_table (opts : Options) (dd : device_data_struct)
    (replies : Nat → CalReply) (clock : Nat) (hvalid : opts.valid_plan)
    (hqt : ∀ table, dd.qtunes = some table → table.length = opts.num_freqs) :
    ∃ ok dd' calls, calibrate_quicktune opts dd replies clock = some (ok, dd', calls) ∧
      ((∀ idx, idx < opts.num_freqs →
          (replies idx).tune_status = 0 ∧ (replies idx).qt_status = 0) → ok = true) ∧
      (ok = true →
        calls = (List.range opts.num_freqs).flatMap
            (fun idx => [DriverCall.set_frequency (opts.freqs.getD idx 0), .get_quick_tune idx])
          ++ [.get_timestamp] ∧
        calls.filterMap tuned_to = opts.freqs ∧
        (∃ table, dd'.qtunes = some table ∧ table.length = opts.num_freqs ∧
          ∀ idx, idx < opts.num_freqs → table[idx]? = some (some (replies idx).qt)) ∧
        dd'.last_buffer_timestamp = clock) := by
  obtain ⟨_, hlen, hfreq⟩ := hvalid
  have htable : (match dd.qtunes with
      | none => List.replicate opts.num_freqs none
      | some table => table).length = opts.freqs.length := by
    cases hq : dd.qtunes with
    | none => simp [hlen]
    | some table => simp [hqt table hq, hlen]
  obtain ⟨ok, table', calls', hrun, hok, hall⟩ := calibrate_loop_spec opts replies hfreq
    opts.num_freqs 0 _ [] (by omega) htable
  cases ok with
  | false =>
    refine ⟨false, { dd with qtunes := some table' }, calls', ?_, ?_, ?_⟩
    · simp only [calibrate_quicktune, hrun]
    · intro hst
      exact hall (fun i _ hi => hst i (by omega))
    · intro h; exact absurd h (by decide)
  | true =>
    obtain ⟨hc, hl, hset, _⟩ := hok rfl
    have hcalls : calls' = (List.range opts.num_freqs).flatMap
        (fun idx => [DriverCall.set_frequency (opts.freqs.getD idx 0), .get_quick_tune idx]) := by
      rw [hc, List.range_eq_range']; simp
    refine ⟨true, { dd with qtunes := some table', last_buffer_timestamp := clock },
      calls' ++ [.get_timestamp], ?_, fun _ => rfl, ?_⟩
    · simp only [calibrate_quicktune, hrun]
    · intro _
      refine ⟨by rw [hcalls], ?_, ⟨table', rfl, ?_, ?_⟩, rfl⟩
      · rw [hcalls, List.filterMap_append, tuned_to_flatMap, ← hlen, map_getD_range]
        simp [tuned_to]
      · rw [hl, htable, hlen]
      · intro idx hidx
        exact hset idx (Nat.zero_le _) (by omega)

theorem calibrate_quicktune_table_witness :
    ∃ dd' calls, calibrate_quicktune scenario ⟨5, none, []⟩ (fun i => ⟨0, 0, 1000 + i⟩) 777
        = some (true, dd', calls) ∧
      calls.filterMap tuned_to = [100000000, 200000000, 300000000] ∧
      dd'.qtunes = some [some 1000, some 1001, some 1002] ∧
      dd'.last_buffer_timestamp = 777 := by
  obtain ⟨ok, dd', calls, h, htrue, hres⟩ :=
    calibrate_quicktune_table scenario ⟨5, none, []⟩ (fun i => ⟨0, 0, 1000 + i⟩) 777
      (by decide) (by intro table h; cases h)
  have hok : ok = true := htrue (fun _ _ => ⟨rfl, rfl⟩)
  subst hok
  obtain ⟨_, htuned, _, hclock⟩ := hres rfl
  have e : calibrate_quicktune scenario ⟨5, none, []⟩ (fun i => ⟨0, 0, 1000 + i⟩) 777
      = some (true, ⟨777, some [some 1000, some 1001, some 1002], []⟩,
        [.set_frequency 100000000, .get_quick_tune 0, .set_frequency 200000000,
          .get_quick_tune 1, .set_frequency 300000000, .get_quick_tune 2, .get_timestamp]) := by
    rfl
  have hdd : dd' = ⟨777, some [some 1000, some 1001, some 1002], []⟩ := by
    have := Option.some.inj (h.symm.trans e)
    exact (Prod.mk.inj (Prod.mk.inj this).2).1
  exact ⟨dd', calls, h, htuned, by rw [hdd], hclock⟩

/-- C10 (the code at the failing input): for a valid plan with a single frequency and a driver
that accepts every call, `open_device` looks up `opts.freqs[1]`, an index equal to num_freqs and
so outside the frequency list, and has no defined result; with two frequencies it applies the
second one, `freqs[1]`. -/
theorem open_device_single_frequency :
    (⟨[100000000], 1, 1000000, 1024, 4⟩ : Options).valid_plan ∧
    open_device ⟨[100000000], 1, 1000000, 1024, 4⟩ ⟨0, 0, 0, 0, 0, 0, 0, 0, 0, 0, 123⟩ = none ∧
    (open_device ⟨[100000000, 200000000], 2, 1000000, 1024, 4⟩
        ⟨0, 0, 0, 0, 0, 0, 0, 0, 0, 0, 123⟩).map (fun res => res.2.2.filterMap tuned_to)
      = some [200000000] :=
  ⟨by decide, by decide, by decide⟩

end BladerfPower
